import Mathlib

/-
  Verification of the indiabix ingestion pipeline (src/main.py) against its
  specification.  The program is shallowly embedded: Python strings are lists of
  characters, the Mongo collection is a list of documents projected on their
  url field, and the orchestrating main() loop is a function producing an event
  trace together with the final store state.
-/

set_option maxHeartbeats 4000000

namespace IndiaBix

/-- Python strings are modelled as lists of characters. -/
abbrev Str := List Char

/-- One question record as assembled by scrape_latest_questions
    (src/main.py lines 136-141). -/
structure QuestionDoc where
  question : Str
  options : List Str
  value_in_braces : Str
  explanation : Str
deriving DecidableEq

/-! ## Truncation (TelegramQuizBot.truncate_text, lines 51-52) -/

/-- Python slice text[:k] for an Int bound k: a negative k counts from the end
    of the string (clamped at the start). -/
def pyTake (s : Str) (k : Int) : Str :=
  if k < 0 then s.take (s.length - (-k).toNat) else s.take k.toNat

/-- truncate_text (lines 51-52):
    text[:max_length-3] + three dots if len(text) > max_length else text.
    The subtraction max_length-3 is Python int subtraction, hence may be
    negative. -/
def truncate_text (text : Str) (max_length : Nat) : Str :=
  if text.length > max_length then pyTake text ((max_length : Int) - 3) ++ ['.', '.', '.']
  else text

/-! ## Poll construction (TelegramQuizBot.send_poll, lines 54-76) -/

/-- The payload handed to bot.send_poll (lines 68-76). -/
structure PollPayload where
  question : Str
  options : List Str
  correct_option_id : Nat
  explanation : Str
deriving DecidableEq

/-- chr(65+i): the letter attached to the i-th option. -/
def optionLetter (i : Nat) : Str := [Char.ofNat (65 + i)]

/-- option_mapping.get(correct_option) (lines 60 and 63): the dictionary
    built as chr(65+i) maps to i for i in range(k); the keys are pairwise
    distinct for the option counts that occur, so a first-match scan of the
    range agrees with the Python dict lookup. -/
def resolveKey (key : Str) (k : Nat) : Option Nat :=
  (List.range k).findSome? (fun i => if optionLetter i = key then some i else none)

/-- send_poll (lines 54-76): builds the truncated question, options and
    explanation, resolves the stored answer-key letter to a zero-based index and
    returns the poll payload; when the key does not resolve the record is
    skipped with an error log and nothing is sent (modelled by none). -/
def send_poll (q : QuestionDoc) : Option PollPayload :=
  let question := truncate_text q.question 300
  let options := q.options.map (fun o => truncate_text o 100)
  let explanation := truncate_text q.explanation 200
  match resolveKey q.value_in_braces options.length with
  | none => none
  | some i => some ⟨question, options, i, explanation⟩

/-! ## Deduplication store (lines 94-111) -/

/-- A document of the persistent collection, projected on its url field; none
    models a stored document in which the field does not exist. -/
structure StoreDoc where
  url : Option Str
deriving DecidableEq

abbrev Collection := List StoreDoc

/-- get_scraped_urls (lines 94-102): every document is inspected; a document
    whose url field is missing is logged and skipped (Python truthiness also
    skips an empty string), and no error is raised. -/
def get_scraped_urls (collection : Collection) : List Str :=
  collection.filterMap (fun doc =>
    match doc.url with
    | some u => if u = [] then none else some u
    | none => none)

/-- clean_up_documents_without_url (lines 105-107):
    delete_many of the documents whose url field does not exist. -/
def clean_up_documents_without_url (collection : Collection) : Collection :=
  collection.filter (fun doc => doc.url.isSome)

/-- update_one with filter {url: u}, update {set url: u} and upsert=True
    (line 111): when a document with this url exists it is updated -- setting
    the field to its own value, hence no visible change -- and otherwise a fresh
    document holding the url is inserted. -/
def upsertUrl (collection : Collection) (u : Str) : Collection :=
  if collection.any (fun doc => decide (doc.url = some u)) then collection
  else collection ++ [⟨some u⟩]

/-- store_scraped_urls (lines 109-111): upserts each url in turn. -/
def store_scraped_urls (collection : Collection) (urls : List Str) : Collection :=
  urls.foldl upsertUrl collection

/-! ## Document assembly (lines 160-246) -/

/-- The content types appearing in prepare_content_list, plus the promotional
    paragraph appended by add_promotional_message. -/
inductive BlockType where
  | question
  | options
  | answer
  | explanation
  | space
  | promo
deriving DecidableEq

/-- One entry of the content list built by prepare_content_list. -/
structure ContentItem where
  type : BlockType
  text : Str
deriving DecidableEq

/-- Decimal digits of a number, as interpolated by a Python f-string. -/
def natStr (n : Nat) : Str := Nat.toDigits 10 n

/-- The entries contributed by the i-th record (1-based) in the loop body of
    prepare_content_list (lines 238-245): the question heading, the Options:
    header, one line per option in stored order, the correct answer, the
    explanation, and a spacer. -/
def recordItems (i : Nat) (q : QuestionDoc) : List ContentItem :=
  [⟨.question, "Question ".toList ++ natStr i ++ ": ".toList ++ q.question⟩,
   ⟨.options, "Options:".toList⟩]
  ++ q.options.enum.map (fun p => ⟨.options, optionLetter p.1 ++ ". ".toList ++ p.2⟩)
  ++ [⟨.answer, "Correct Answer: ".toList ++ q.value_in_braces⟩,
      ⟨.explanation, "Explanation: ".toList ++ q.explanation⟩,
      ⟨.space, ['\n']⟩]

/-- The enumerate(question_docs, 1) loop of prepare_content_list. -/
def prepareAux (i : Nat) : List QuestionDoc → List ContentItem
  | [] => []
  | q :: qs => recordItems i q ++ prepareAux (i + 1) qs

/-- prepare_content_list (lines 235-246). -/
def prepare_content_list (question_docs : List QuestionDoc) : List ContentItem :=
  prepareAux 1 question_docs

/-- A paragraph of the assembled document: the content it renders plus the
    optional hyperlink added by add_hyperlink (url and display text). -/
structure Paragraph where
  item : ContentItem
  hyperlink : Option (Str × Str)
deriving DecidableEq

/-- Module constant TELEGRAM_CHANNEL_URL (line 33). -/
def TELEGRAM_CHANNEL_URL : Str := "https://t.me/YourChannelUsername".toList

/-- The paragraph appended by add_promotional_message (lines 196-209): a fixed
    promotional text (its leading emoji bytes are not modelled) followed by a
    clickable Join Now hyperlink to the channel. -/
def promoParagraph : Paragraph :=
  ⟨⟨.promo, "Join our Telegram Channel for daily quizzes and updates: ".toList⟩,
   some (TELEGRAM_CHANNEL_URL, "Join Now".toList)⟩

/-- insert_content_from_top (lines 160-194): appends one paragraph per content
    item in list order, then add_promotional_message appends the promotional
    paragraph unconditionally. The per-kind style hints (bold, indent, font
    size, spacing) do not affect the block sequence and are not modelled. -/
def insert_content_from_top (doc : List Paragraph) (content_list : List ContentItem) :
    List Paragraph :=
  doc ++ content_list.map (fun c => Paragraph.mk c none) ++ [promoParagraph]

/-! ## PDF delivery (send_pdf_to_telegram, lines 279-289) -/

/-- Result classes of one bot.send_document network call. TimedOut is a
    subclass of TelegramError in the messaging library, so a timeout lands in
    the same except clause as any other TelegramError. -/
inductive SendOutcome where
  | success
  | timeout
  | telegramError
  | otherError
deriving DecidableEq

/-- How send_pdf_to_telegram terminates. -/
inductive DeliveryResult where
  | delivered
  | abandonedLogged
  | raised
deriving DecidableEq

/-- send_pdf_to_telegram (lines 279-289): a single call to bot.send_document
    inside try/except TelegramError. A TelegramError (timeouts included) is
    logged and the function returns; any other exception propagates. `outcomes n`
    is what the channel would answer to the (n+1)-th call; the first component
    is the number of calls actually made. -/
def send_pdf_to_telegram (outcomes : Nat → SendOutcome) : Nat × DeliveryResult :=
  match outcomes 0 with
  | .success => (1, .delivered)
  | .timeout => (1, .abandonedLogged)
  | .telegramError => (1, .abandonedLogged)
  | .otherError => (1, .raised)

/-! ## Date parsing and link ordering (lines 291-299 and 327) -/

/-- Python str.split(sep) with a one-character separator. -/
def splitOnChar (c : Char) : Str → List Str
  | [] => [[]]
  | x :: xs =>
    match splitOnChar c xs with
    | [] => [[]]
    | y :: ys => if x = c then [] :: y :: ys else (x :: y) :: ys

def digitVal (c : Char) : Nat := c.toNat - 48

def digitsToNat (s : Str) : Nat := s.foldl (fun a c => a * 10 + digitVal c) 0

def allDigits (s : Str) : Bool := !s.isEmpty && s.all Char.isDigit

def isLeapYear (y : Nat) : Bool := (y % 4 == 0 && y % 100 != 0) || y % 400 == 0

def daysInMonth (y m : Nat) : Nat :=
  if m = 2 then (if isLeapYear y then 29 else 28)
  else if m = 4 ∨ m = 6 ∨ m = 9 ∨ m = 11 then 30
  else 31

/-- datetime.strptime(s, "%Y-%m-%d") (lines 295 and 327): %Y is exactly four
    digits, %m one or two digits valued 1..12, %d one or two digits valued
    1..31, the whole string must be consumed, and the datetime constructor
    validates the day against the month and requires year >= 1. none models the
    ValueError raised otherwise. -/
def strptimeYmd (s : Str) : Option (Nat × Nat × Nat) :=
  match splitOnChar '-' s with
  | [ys, ms, ds] =>
    if allDigits ys ∧ ys.length = 4 ∧ allDigits ms ∧ ms.length ≤ 2
        ∧ allDigits ds ∧ ds.length ≤ 2 then
      let y := digitsToNat ys
      let m := digitsToNat ms
      let d := digitsToNat ds
      if 1 ≤ y ∧ 1 ≤ m ∧ m ≤ 12 ∧ 1 ≤ d ∧ d ≤ daysInMonth y m then some (y, m, d)
      else none
    else none
  | _ => none

/-- url.split("/")[-2] (lines 294 and 327): none models the IndexError raised
    when the url contains no slash at all. -/
def urlDatePart (url : Str) : Option Str :=
  let parts := splitOnChar '/' url
  if h : 2 ≤ parts.length then some (parts.get ⟨parts.length - 2, by omega⟩)
  else none

/-- The date key datetime.strptime(url.split("/")[-2], "%Y-%m-%d") of the sort
    on line 327; none models the exception propagating out of the key
    function. -/
def linkDate (url : Str) : Option (Nat × Nat × Nat) :=
  (urlDatePart url).bind strptimeYmd

/-- Chronological comparison of two parsed dates (datetime comparison is
    lexicographic on year, month, day). -/
def dateLe (a b : Nat × Nat × Nat) : Bool :=
  decide (a.1 < b.1 ∨ (a.1 = b.1 ∧ (a.2.1 < b.2.1 ∨ (a.2.1 = b.2.1 ∧ a.2.2 ≤ b.2.2))))

def linkDateD (url : Str) : Nat × Nat × Nat := (linkDate url).getD (0, 0, 0)

def linkLe (a b : Str) : Bool := dateLe (linkDateD a) (linkDateD b)

/-- The relation the links are sorted by on line 327. -/
def LinkOrder (a b : Str) : Prop := linkLe a b = true

instance : DecidableRel LinkOrder := fun a b => inferInstanceAs (Decidable (linkLe a b = true))

/-- valid_links.sort(key=...) (line 327): Python list.sort is a stable
    ascending sort by the key; computing the key raises for any link without a
    parsable date token and the exception propagates out of main (modelled by
    none). Insertion sort inserting before the first greater-or-equal element
    is stable, hence produces the same list as Python's stable sort for this
    total preorder. -/
def sortLinksByDate (links : List Str) : Option (List Str) :=
  if links.all (fun l => (linkDate l).isSome) then some (links.insertionSort LinkOrder)
  else none

def monthNames : List Str :=
  ["January", "February", "March", "April", "May", "June", "July",
   "August", "September", "October", "November", "December"].map String.toList

def pad2 (n : Nat) : Str := if n < 10 then '0' :: natStr n else natStr n

/-- strftime("%d %B %Y") of a date. -/
def formatDate (p : Nat × Nat × Nat) : Str :=
  pad2 p.2.2 ++ ' ' :: (monthNames.getD (p.2.1 - 1) []) ++ ' ' :: natStr p.1

/-- extract_date_from_url (lines 291-299): formats the date token of the url;
    on ValueError or IndexError it logs a warning and falls back to today's
    date -- it never raises. -/
def extract_date_from_url (today : Nat × Nat × Nat) (url : Str) : Str :=
  match linkDate url with
  | some d => formatDate d
  | none => formatDate today

/-! ## Link discovery (lines 306-327) -/

def siteBase : Str := "https://www.indiabix.com".toList

/-- urljoin of the base index url with an anchor href (line 318), modelled for
    the href shapes the site produces: an absolute http(s) href is kept, a
    root-relative href is joined to scheme and host, and any other relative
    href is resolved against the base path. -/
def urljoinBix (href : Str) : Str :=
  if "http".toList.isPrefixOf href then href
  else if href.head? = some '/' then siteBase ++ href
  else siteBase ++ '/' :: href

/-- Python substring containment p in s. -/
def isSubList (p : Str) : Str → Bool
  | [] => p.isEmpty
  | c :: t => p.isPrefixOf (c :: t) || isSubList p t

/-- The f-string filter pattern of line 317. -/
def linkPattern (monthDigit : Str) : Str :=
  "/current-affairs/2024-".toList ++ monthDigit ++ ['-']

/-- The whole run environment: the index page anchors, the current month, and
    the behaviour of the external collaborators per detail link.
    extract models the value of scrape_latest_questions(link) (lines 113-152):
    the parsed question records, where a fetch failure of the detail page
    yields the empty list. templateOk models whether download_template
    (line 342) succeeds, and renderOk whether convert_docx_to_pdf (lines
    258-277) produces the expected output file. -/
structure Env where
  hrefs : List Str
  monthDigit : Str
  extract : Str → List QuestionDoc
  templateOk : Str → Bool
  renderOk : Str → Bool

/-- The candidate identifiers discovered from the index page (lines 314-318):
    hrefs matching the month pattern, resolved to absolute urls. -/
def discoveredCandidates (env : Env) : List Str :=
  (env.hrefs.filter (fun h => isSubList (linkPattern env.monthDigit) h)).map urljoinBix

/-- valid_links (lines 314-320): the discovered candidates not already in
    stored_urls. -/
def validLinks (env : Env) (stored : List Str) : List Str :=
  (discoveredCandidates env).filter (fun u => decide (u ∉ stored))

/-- The seen set a run starts from: get_scraped_urls after the cleanup pass
    (lines 303-304). -/
def storedOf (collection : Collection) : List Str :=
  get_scraped_urls (clean_up_documents_without_url collection)

/-! ## The per-run orchestration (main, lines 301-376) -/

/-- The observable actions of one run, in program order: fetching and parsing a
    detail page (line 332), upserting its url into the store (line 335),
    attempting one poll send (line 336 via send_new_questions_to_telegram),
    invoking the docx-to-pdf converter (line 353), and attempting the pdf
    document send (line 366). -/
inductive Event where
  | extractEv (link : Str)
  | markSeenEv (link : Str)
  | sendPollEv (link : Str)
  | renderEv (link : Str)
  | sendPdfEv (link : Str)
deriving DecidableEq

/-- The link an event concerns. -/
def Event.link : Event → Str
  | .extractEv l => l
  | .markSeenEv l => l
  | .sendPollEv l => l
  | .renderEv l => l
  | .sendPdfEv l => l

/-- Delivery events: polls and the pdf document. -/
def isDeliveryEv : Event → Bool
  | .sendPollEv _ => true
  | .sendPdfEv _ => true
  | _ => false

/-- State threaded through the run: the collection, the event trace, the
    temporary files left on disk (identified by the link whose temporary docx
    remains), and whether an uncaught exception aborted the run. -/
structure RunState where
  collection : Collection
  trace : List Event
  temps : List Str
  aborted : Bool

/-- One iteration of the for link in valid_links loop (lines 329-376):
    scrape_latest_questions(link); when it yields no records the link is only
    logged (lines 372-373) -- nothing is stored or delivered.  Otherwise the
    url is upserted (line 335), every question gets one poll attempt (line 336,
    poll failures are caught inside send_poll), then download_template
    (line 342, an exception propagates before any temporary file exists), then
    the temporary docx is written and converted (line 353): a conversion
    failure propagates and leaves the temporary docx on disk, since no
    try/finally protects the cleanup; on success the pdf send is attempted
    (line 366, TelegramError is caught) and both temporary files are removed
    (lines 369-370). -/
def processLink (env : Env) (collection : Collection) (link : Str) : RunState :=
  let docs := env.extract link
  if docs.isEmpty then ⟨collection, [.extractEv link], [], false⟩
  else
    let collection' := store_scraped_urls collection [link]
    let evs := Event.extractEv link :: Event.markSeenEv link ::
      docs.map (fun _ => Event.sendPollEv link)
    if !env.templateOk link then ⟨collection', evs, [], true⟩
    else if env.renderOk link then
      ⟨collection', evs ++ [.renderEv link, .sendPdfEv link], [], false⟩
    else ⟨collection', evs ++ [.renderEv link], [link], true⟩

/-- The loop over valid_links: an uncaught exception in one iteration aborts
    the whole run (main has no handler), skipping every remaining link. -/
def runLoop (env : Env) : Collection → List Str → RunState
  | collection, [] => ⟨collection, [], [], false⟩
  | collection, l :: ls =>
    let st := processLink env collection l
    if st.aborted then st
    else
      let st' := runLoop env st.collection ls
      ⟨st'.collection, st.trace ++ st'.trace, st.temps ++ st'.temps, st'.aborted⟩

/-- main (lines 301-376): cleanup pass, read the seen set, discover and filter
    the candidate links, return early when none is new (lines 322-324), sort
    them by the embedded date (line 327, aborting the run when a key fails),
    then process each link in order. -/
def runMain (env : Env) (col0 : Collection) : RunState :=
  let col1 := clean_up_documents_without_url col0
  let stored := get_scraped_urls col1
  let valid := validLinks env stored
  if valid.isEmpty then ⟨col1, [], [], false⟩
  else
    match sortLinksByDate valid with
    | none => ⟨col1, [], [], true⟩
    | some sorted => runLoop env col1 sorted

/-- The links whose detail pages a run fetched, in processing order. -/
def processedLinks (t : List Event) : List Str :=
  t.filterMap (fun e =>
    match e with
    | .extractEv l => some l
    | _ => none)

/-- Orderliness of a run trace for one link: in every prefix of the trace the
    store upserts never outnumber the completed extractions, converter
    invocations never outnumber store upserts, document sends never outnumber
    converter invocations, and a poll send only appears after a store
    upsert. -/
abbrev OrderedAt (t : List Event) (l : Str) : Prop :=
  (∀ n, ((t.take n).count (Event.markSeenEv l)) ≤ (t.take n).count (Event.extractEv l)) ∧
  (∀ n, ((t.take n).count (Event.renderEv l)) ≤ (t.take n).count (Event.markSeenEv l)) ∧
  (∀ n, ((t.take n).count (Event.sendPdfEv l)) ≤ (t.take n).count (Event.renderEv l)) ∧
  (∀ n, Event.sendPollEv l ∈ t.take n → Event.markSeenEv l ∈ t.take n)

/-- Orderliness of a run trace, for every link. -/
abbrev OrderedTrace (t : List Event) : Prop :=
  ∀ l : Str, OrderedAt t l

/-! ## Concrete instances used by witnesses and counterexamples -/

/-- A sample one-question extraction result. -/
def sampleDoc : QuestionDoc :=
  ⟨"Sample question".toList, ["opt one".toList, "opt two".toList], "A".toList,
   "Because".toList⟩

/-- A four-option record whose stored answer key is the letter C. -/
def quizKeyC : QuestionDoc :=
  ⟨"Which one".toList, ["p".toList, "q".toList, "r".toList, "s".toList], "C".toList,
   "why".toList⟩

def hrefOct3 : Str := "/current-affairs/2024-10-03/".toList

def linkOct3 : Str := "https://www.indiabix.com/current-affairs/2024-10-03/".toList

def hrefOct5 : Str := "/current-affairs/2024-10-05/".toList

def linkOct5 : Str := "https://www.indiabix.com/current-affairs/2024-10-05/".toList

def hrefOct7 : Str := "/current-affairs/2024-10-07/".toList

def linkOct7 : Str := "https://www.indiabix.com/current-affairs/2024-10-07/".toList

/-- A href matching the month filter whose second-to-last path segment is not a
    date (a link shape like this makes the sort key raise). -/
def hrefBad : Str := "/current-affairs/2024-10-quiz/".toList

/-- Environment of the C1 witness: one new dated link, extraction succeeds with
    one record, template and converter succeed. -/
def envC1 : Env :=
  ⟨[hrefOct5], "10".toList, fun _ => [sampleDoc], fun _ => true, fun _ => true⟩

/-- Environment of the C2 counterexample: one new dated link whose extraction
    yields no records. -/
def envC2 : Env :=
  ⟨[hrefOct5], "10".toList, fun _ => [], fun _ => true, fun _ => true⟩

/-- Environment of the C2 witness: one new dated link with a successful
    single-record extraction. -/
def envC2w : Env :=
  ⟨[hrefOct3], "10".toList, fun _ => [sampleDoc], fun _ => true, fun _ => true⟩

/-- Outcome schedule in which the first network call times out and every later
    call would succeed. -/
def timeoutThenSuccess : Nat → SendOutcome :=
  fun n => if n = 0 then SendOutcome.timeout else SendOutcome.success

/-- Environment of the C8 counterexample: extraction succeeds but the docx to
    pdf conversion fails. -/
def envC8 : Env :=
  ⟨[hrefOct7], "10".toList, fun _ => [sampleDoc], fun _ => true, fun _ => false⟩

/-- Environment of the C8 witness: everything succeeds. -/
def envC8w : Env :=
  ⟨[hrefOct7], "10".toList, fun _ => [sampleDoc], fun _ => true, fun _ => true⟩

/-- Environment of the C9 counterexample: one matching link without a parsable
    date token. -/
def envC9 : Env :=
  ⟨[hrefBad], "10".toList, fun _ => [sampleDoc], fun _ => true, fun _ => true⟩

/-- Environment of the C9 witness: two dated links listed newest first. -/
def envC9w : Env :=
  ⟨[hrefOct7, hrefOct3], "10".toList, fun _ => [sampleDoc], fun _ => true, fun _ => true⟩

/-- Environment of the C10 witness: one new dated link whose extraction yields
    no records. -/
def envC10 : Env :=
  ⟨[hrefOct3], "10".toList, fun _ => [], fun _ => true, fun _ => true⟩

/-! ## Trace-ordering lemmas -/

lemma count_take_zero_of_not_mem {a : Event} {t : List Event} (h : a ∉ t) (n : Nat) :
    (t.take n).count a = 0 :=
  List.count_eq_zero.2 (fun hm => h ((List.take_sublist n t).subset hm))

lemma orderedTrace_nil : OrderedTrace [] := by
  intro l
  refine ⟨?_, ?_, ?_, ?_⟩ <;> intro n <;> simp

lemma orderedTrace_append {t₁ t₂ : List Event} (h₁ : OrderedTrace t₁)
    (h₂ : OrderedTrace t₂) : OrderedTrace (t₁ ++ t₂) := by
  intro l
  obtain ⟨a₁, b₁, c₁, d₁⟩ := h₁ l
  obtain ⟨a₂, b₂, c₂, d₂⟩ := h₂ l
  refine ⟨?_, ?_, ?_, ?_⟩ <;> intro n
  · rw [List.take_append_eq_append_take, List.count_append, List.count_append]
    exact Nat.add_le_add (a₁ n) (a₂ _)
  · rw [List.take_append_eq_append_take, List.count_append, List.count_append]
    exact Nat.add_le_add (b₁ n) (b₂ _)
  · rw [List.take_append_eq_append_take, List.count_append, List.count_append]
    exact Nat.add_le_add (c₁ n) (c₂ _)
  · intro hm
    rw [List.take_append_eq_append_take] at hm ⊢
    rcases List.mem_append.1 hm with h | h
    · exact List.mem_append.2 (Or.inl (d₁ n h))
    · exact List.mem_append.2 (Or.inr (d₂ _ h))

lemma count_prefix_le_structured (a b : Event) (pre post : List Event)
    (hab : a ≠ b) (ha : a ∉ pre) (hpost : post.count a ≤ 1) :
    ∀ n, ((pre ++ b :: post).take n).count a ≤ ((pre ++ b :: post).take n).count b := by
  intro n
  rw [List.take_append_eq_append_take, List.count_append, List.count_append,
    count_take_zero_of_not_mem ha n, Nat.zero_add]
  cases hc : n - pre.length with
  | zero => simp
  | succ m =>
    rw [List.take_succ_cons, List.count_cons, List.count_cons]
    have h1 : (post.take m).count a ≤ post.count a := (List.take_sublist m post).count_le a
    have h2 : (b == a) = false := beq_eq_false_iff_ne.2 (fun h => hab h.symm)
    simp [h2]
    omega

lemma mem_prefix_imp_structured (a b : Event) (pre post : List Event) (ha : a ∉ pre) :
    ∀ n, a ∈ (pre ++ b :: post).take n → b ∈ (pre ++ b :: post).take n := by
  intro n hm
  rw [List.take_append_eq_append_take] at hm ⊢
  rcases List.mem_append.1 hm with h | h
  · exact absurd ((List.take_sublist n pre).subset h) ha
  · cases hc : n - pre.length with
    | zero => rw [hc] at h; simp at h
    | succ m =>
      rw [List.take_succ_cons]
      exact List.mem_append.2 (Or.inr (List.mem_cons_self b _))

lemma orderedAt_of_absent {t : List Event} {l : Str}
    (h1 : Event.markSeenEv l ∉ t) (h2 : Event.renderEv l ∉ t)
    (h3 : Event.sendPdfEv l ∉ t) (h4 : Event.sendPollEv l ∉ t) :
    OrderedAt t l := by
  refine ⟨?_, ?_, ?_, ?_⟩ <;> intro n
  · rw [count_take_zero_of_not_mem h1 n]; exact Nat.zero_le _
  · rw [count_take_zero_of_not_mem h2 n]; exact Nat.zero_le _
  · rw [count_take_zero_of_not_mem h3 n]; exact Nat.zero_le _
  · intro hm; exact absurd ((List.take_sublist n t).subset hm) h4

lemma not_mem_polls {e : Event} {l : Str} {docs : List QuestionDoc}
    (h : e ≠ Event.sendPollEv l) : e ∉ docs.map (fun _ => Event.sendPollEv l) := by
  intro hm
  obtain ⟨d, _, hd⟩ := List.mem_map.1 hm
  exact h hd.symm

/-- Case analysis of the trace produced by one loop iteration. -/
lemma processLink_trace_eq (env : Env) (col : Collection) (l : Str) :
    ((env.extract l).isEmpty = true ∧ (processLink env col l).trace = [Event.extractEv l]) ∨
    ((env.extract l).isEmpty = false ∧ ∃ tail,
      (tail = [] ∨ tail = [Event.renderEv l] ∨ tail = [Event.renderEv l, Event.sendPdfEv l]) ∧
      (processLink env col l).trace =
        Event.extractEv l :: Event.markSeenEv l ::
          ((env.extract l).map (fun _ => Event.sendPollEv l) ++ tail)) := by
  by_cases hd : (env.extract l).isEmpty
  · exact Or.inl ⟨hd, by simp [processLink, hd]⟩
  · refine Or.inr ⟨by simpa using hd, ?_⟩
    by_cases ht : env.templateOk l
    · by_cases hr : env.renderOk l
      · exact ⟨[Event.renderEv l, Event.sendPdfEv l], by tauto,
          by simp [processLink, hd, ht, hr]⟩
      · exact ⟨[Event.renderEv l], by tauto, by simp [processLink, hd, ht, hr]⟩
    · exact ⟨[], by tauto, by simp [processLink, hd, ht]⟩

/-- Every event of one loop iteration concerns the iterated link. -/
lemma processLink_trace_link (env : Env) (col : Collection) (l : Str) :
    ∀ e ∈ (processLink env col l).trace, e.link = l := by
  intro e he
  rcases processLink_trace_eq env col l with ⟨_, h⟩ | ⟨_, tail, htail, h⟩
  · rw [h] at he
    simp only [List.mem_singleton] at he
    subst he; rfl
  · rw [h] at he
    rcases htail with rfl | rfl | rfl <;>
      simp only [List.mem_cons, List.mem_append, List.mem_map, List.mem_singleton,
        List.not_mem_nil, or_false] at he
    · rcases he with rfl | rfl | ⟨d, _, rfl⟩ <;> rfl
    · rcases he with rfl | rfl | ⟨d, _, rfl⟩ | rfl <;> rfl
    · rcases he with rfl | rfl | ⟨d, _, rfl⟩ | rfl | rfl <;> rfl

lemma orderedTrace_processLink (env : Env) (col : Collection) (l : Str) :
    OrderedTrace (processLink env col l).trace := by
  intro l'
  by_cases hl : l' = l
  · subst hl
    rcases processLink_trace_eq env col l' with ⟨_, h⟩ | ⟨_, tail, htail, h⟩
    · rw [h]
      exact orderedAt_of_absent (by simp) (by simp) (by simp) (by simp)
    · rw [h]
      set polls := (env.extract l').map (fun _ => Event.sendPollEv l') with hpolls
      have hmark_polls : Event.markSeenEv l' ∉ polls := not_mem_polls (by simp)
      have hrender_polls : Event.renderEv l' ∉ polls := not_mem_polls (by simp)
      have hpdf_polls : Event.sendPdfEv l' ∉ polls := not_mem_polls (by simp)
      have hmark_tail : Event.markSeenEv l' ∉ tail := by
        rcases htail with rfl | rfl | rfl <;> simp
      have hrender_tail : tail.count (Event.renderEv l') ≤ 1 := by
        rcases htail with rfl | rfl | rfl <;> simp
      refine ⟨?_, ?_, ?_, ?_⟩
      · have hcnt : (Event.markSeenEv l' :: (polls ++ tail)).count (Event.markSeenEv l') ≤ 1 := by
          rw [List.count_cons]
          rw [List.count_append]
          rw [List.count_eq_zero.2 hmark_polls, List.count_eq_zero.2 hmark_tail]
          simp
        exact count_prefix_le_structured (Event.markSeenEv l') (Event.extractEv l') []
          (Event.markSeenEv l' :: (polls ++ tail)) (by simp) (by simp) hcnt
      · have hcnt : (polls ++ tail).count (Event.renderEv l') ≤ 1 := by
          rw [List.count_append, List.count_eq_zero.2 hrender_polls]
          omega
        exact count_prefix_le_structured (Event.renderEv l') (Event.markSeenEv l')
          [Event.extractEv l'] (polls ++ tail) (by simp) (by simp) hcnt
      · rcases htail with rfl | rfl | rfl
        · intro n
          have hnm : Event.sendPdfEv l' ∉ Event.extractEv l' :: Event.markSeenEv l' ::
              (polls ++ []) := by simp [hpdf_polls]
          rw [count_take_zero_of_not_mem hnm n]
          exact Nat.zero_le _
        · intro n
          have hnm : Event.sendPdfEv l' ∉ Event.extractEv l' :: Event.markSeenEv l' ::
              (polls ++ [Event.renderEv l']) := by simp [hpdf_polls]
          rw [count_take_zero_of_not_mem hnm n]
          exact Nat.zero_le _
        · have heq : Event.extractEv l' :: Event.markSeenEv l' ::
              (polls ++ [Event.renderEv l', Event.sendPdfEv l']) =
              (Event.extractEv l' :: Event.markSeenEv l' :: polls) ++
                Event.renderEv l' :: [Event.sendPdfEv l'] := by simp
          rw [heq]
          exact count_prefix_le_structured (Event.sendPdfEv l') (Event.renderEv l')
            (Event.extractEv l' :: Event.markSeenEv l' :: polls) [Event.sendPdfEv l']
            (by simp) (by simp [hpdf_polls]) (by simp)
      · exact mem_prefix_imp_structured (Event.sendPollEv l') (Event.markSeenEv l')
          [Event.extractEv l'] (polls ++ tail) (by simp)
  · have hnm : ∀ e : Event, e.link = l' → e ∉ (processLink env col l).trace := by
      intro e hel hm
      exact hl (by rw [← hel, processLink_trace_link env col l e hm])
    exact orderedAt_of_absent (hnm _ rfl) (hnm _ rfl) (hnm _ rfl) (hnm _ rfl)

lemma orderedTrace_runLoop (env : Env) (col : Collection) (links : List Str) :
    OrderedTrace (runLoop env col links).trace := by
  induction links generalizing col with
  | nil =>
    intro l
    refine orderedAt_of_absent ?_ ?_ ?_ ?_ <;> simp [runLoop]
  | cons l ls ih =>
    rw [runLoop]
    by_cases hab : (processLink env col l).aborted
    · simpa [hab] using orderedTrace_processLink env col l
    · simpa [hab] using
        orderedTrace_append (orderedTrace_processLink env col l)
          (ih (processLink env col l).collection)

/-! ## Store lemmas -/

lemma mem_get_scraped_urls {col : Collection} {u : Str} :
    u ∈ get_scraped_urls col ↔ (∃ d ∈ col, d.url = some u) ∧ u ≠ [] := by
  unfold get_scraped_urls
  rw [List.mem_filterMap]
  constructor
  · rintro ⟨d, hd, hf⟩
    rcases hu : d.url with _ | v
    · rw [hu] at hf; simp at hf
    · rw [hu] at hf
      by_cases hv : v = []
      · simp [hv] at hf
      · simp [hv] at hf
        subst hf
        exact ⟨⟨d, hd, hu⟩, hv⟩
  · rintro ⟨⟨d, hd, hu⟩, hne⟩
    exact ⟨d, hd, by rw [hu]; simp [hne]⟩

lemma get_scraped_urls_clean_up (col : Collection) :
    get_scraped_urls (clean_up_documents_without_url col) = get_scraped_urls col := by
  induction col with
  | nil => rfl
  | cons d ds ih =>
    rcases hu : d.url with _ | v
    · simpa [clean_up_documents_without_url, get_scraped_urls, List.filter_cons,
        List.filterMap_cons, hu] using ih
    · by_cases hv : v = [] <;>
        simpa [clean_up_documents_without_url, get_scraped_urls, List.filter_cons,
          List.filterMap_cons, hu, hv] using ih

lemma storedOf_eq (col : Collection) : storedOf col = get_scraped_urls col :=
  get_scraped_urls_clean_up col

lemma urls_upsert_superset {col : Collection} {u : Str} (v : Str)
    (h : u ∈ get_scraped_urls col) : u ∈ get_scraped_urls (upsertUrl col v) := by
  unfold upsertUrl
  split
  · exact h
  · rcases mem_get_scraped_urls.1 h with ⟨⟨d, hd, hu⟩, hne⟩
    exact mem_get_scraped_urls.2 ⟨⟨d, List.mem_append.2 (Or.inl hd), hu⟩, hne⟩

lemma urls_upsert_self {col : Collection} {u : Str} (hne : u ≠ []) :
    u ∈ get_scraped_urls (upsertUrl col u) := by
  unfold upsertUrl
  split
  · rename_i hany
    obtain ⟨d, hd, hdu⟩ := List.any_eq_true.1 hany
    exact mem_get_scraped_urls.2 ⟨⟨d, hd, of_decide_eq_true hdu⟩, hne⟩
  · exact mem_get_scraped_urls.2
      ⟨⟨⟨some u⟩, List.mem_append.2 (Or.inr (List.mem_singleton.2 rfl)), rfl⟩, hne⟩

lemma urls_upsert_cases {col : Collection} {u : Str} (v : Str)
    (h : u ∈ get_scraped_urls (upsertUrl col v)) :
    u ∈ get_scraped_urls col ∨ u = v := by
  unfold upsertUrl at h
  split at h
  · exact Or.inl h
  · rcases mem_get_scraped_urls.1 h with ⟨⟨d, hd, hu⟩, hne⟩
    rcases List.mem_append.1 hd with hd | hd
    · exact Or.inl (mem_get_scraped_urls.2 ⟨⟨d, hd, hu⟩, hne⟩)
    · rw [List.mem_singleton.1 hd] at hu
      exact Or.inr (by simpa using hu.symm)

lemma store_single (col : Collection) (u : Str) :
    store_scraped_urls col [u] = upsertUrl col u := rfl

/-! ## Loop lemmas -/

lemma processLink_collection_cases (env : Env) (col : Collection) (l : Str) :
    ((env.extract l).isEmpty = true ∧ (processLink env col l).collection = col) ∨
    ((env.extract l).isEmpty = false ∧
      (processLink env col l).collection = store_scraped_urls col [l]) := by
  by_cases hd : (env.extract l).isEmpty
  · exact Or.inl ⟨hd, by simp [processLink, hd]⟩
  · refine Or.inr ⟨by simpa using hd, ?_⟩
    by_cases ht : env.templateOk l
    · by_cases hr : env.renderOk l <;> simp [processLink, hd, ht, hr]
    · simp [processLink, hd, ht]

lemma urls_processLink_superset (env : Env) (col : Collection) (l : Str) {u : Str}
    (h : u ∈ get_scraped_urls col) :
    u ∈ get_scraped_urls (processLink env col l).collection := by
  rcases processLink_collection_cases env col l with ⟨_, hc⟩ | ⟨_, hc⟩
  · rwa [hc]
  · rw [hc, store_single]
    exact urls_upsert_superset l h

lemma urls_runLoop_superset (env : Env) (col : Collection) (links : List Str) {u : Str}
    (h : u ∈ get_scraped_urls col) :
    u ∈ get_scraped_urls (runLoop env col links).collection := by
  induction links generalizing col with
  | nil => exact h
  | cons l ls ih =>
    rw [runLoop]
    by_cases hab : (processLink env col l).aborted
    · simpa [hab] using urls_processLink_superset env col l h
    · simpa [hab] using ih _ (urls_processLink_superset env col l h)

lemma urls_runLoop_cases (env : Env) (col : Collection) (links : List Str) {u : Str}
    (h : u ∈ get_scraped_urls (runLoop env col links).collection) :
    u ∈ get_scraped_urls col ∨ (u ∈ links ∧ env.extract u ≠ []) := by
  induction links generalizing col with
  | nil => exact Or.inl h
  | cons l ls ih =>
    rw [runLoop] at h
    by_cases hab : (processLink env col l).aborted
    · simp only [hab, if_true] at h
      rcases processLink_collection_cases env col l with ⟨_, hc⟩ | ⟨hne, hc⟩
      · rw [hc] at h; exact Or.inl h
      · rw [hc, store_single] at h
        rcases urls_upsert_cases l h with h | rfl
        · exact Or.inl h
        · exact Or.inr ⟨List.mem_cons_self _ _, by simpa [List.isEmpty_iff] using hne⟩
    · simp only [hab, if_false] at h
      rcases ih _ h with h | ⟨hm, hx⟩
      · rcases processLink_collection_cases env col l with ⟨_, hc⟩ | ⟨hne, hc⟩
        · rw [hc] at h; exact Or.inl h
        · rw [hc, store_single] at h
          rcases urls_upsert_cases l h with h | rfl
          · exact Or.inl h
          · exact Or.inr ⟨List.mem_cons_self _ _, by simpa [List.isEmpty_iff] using hne⟩
      · exact Or.inr ⟨List.mem_cons_of_mem _ hm, hx⟩

lemma markSeen_processLink (env : Env) (col : Collection) (l l' : Str)
    (h : Event.markSeenEv l' ∈ (processLink env col l).trace) :
    l' = l ∧ (env.extract l).isEmpty = false := by
  have hl : l' = l := by
    have := processLink_trace_link env col l _ h
    simpa [Event.link] using this
  subst hl
  rcases processLink_trace_eq env col l' with ⟨_, ht⟩ | ⟨hne, _, _, _⟩
  · rw [ht] at h; simp at h
  · exact ⟨rfl, hne⟩

lemma markSeen_runLoop_stored (env : Env) (col : Collection) (links : List Str) {l : Str}
    (hne : l ≠ [])
    (h : Event.markSeenEv l ∈ (runLoop env col links).trace) :
    l ∈ get_scraped_urls (runLoop env col links).collection := by
  induction links generalizing col with
  | nil => simp [runLoop] at h
  | cons l₀ ls ih =>
    rw [runLoop] at h ⊢
    by_cases hab : (processLink env col l₀).aborted
    · simp only [hab, if_true] at h ⊢
      obtain ⟨rfl, hemp⟩ := markSeen_processLink env col l₀ l h
      rcases processLink_collection_cases env col l with ⟨he, _⟩ | ⟨_, hc⟩
      · rw [he] at hemp; exact absurd hemp (by simp)
      · rw [hc, store_single]
        exact urls_upsert_self hne
    · simp only [hab, if_false] at h ⊢
      rcases List.mem_append.1 h with h | h
      · obtain ⟨rfl, hemp⟩ := markSeen_processLink env col l₀ l h
        have hstored : l ∈ get_scraped_urls (processLink env col l).collection := by
          rcases processLink_collection_cases env col l with ⟨he, _⟩ | ⟨_, hc⟩
          · rw [he] at hemp; exact absurd hemp (by simp)
          · rw [hc, store_single]
            exact urls_upsert_self hne
        exact urls_runLoop_superset env _ ls hstored
      · exact ih _ h

lemma event_link_runLoop (env : Env) (col : Collection) (links : List Str) :
    ∀ e ∈ (runLoop env col links).trace, e.link ∈ links := by
  induction links generalizing col with
  | nil => simp [runLoop]
  | cons l ls ih =>
    intro e he
    rw [runLoop] at he
    by_cases hab : (processLink env col l).aborted
    · simp only [hab, if_true] at he
      rw [processLink_trace_link env col l e he]
      exact List.mem_cons_self _ _
    · simp only [hab, if_false] at he
      rcases List.mem_append.1 he with he | he
      · rw [processLink_trace_link env col l e he]
        exact List.mem_cons_self _ _
      · exact List.mem_cons_of_mem _ (ih _ e he)

lemma extract_runLoop_of_mem (env : Env) (col : Collection) (links : List Str)
    (hab : (runLoop env col links).aborted = false) :
    ∀ l ∈ links, Event.extractEv l ∈ (runLoop env col links).trace := by
  induction links generalizing col with
  | nil => simp
  | cons l₀ ls ih =>
    intro l hl
    rw [runLoop] at hab ⊢
    by_cases hab₀ : (processLink env col l₀).aborted
    · rw [if_pos hab₀] at hab
      exact absurd hab (by simp [hab₀])
    · rw [if_neg hab₀] at hab ⊢
      rcases List.mem_cons.1 hl with rfl | hl
      · refine List.mem_append.2 (Or.inl ?_)
        rcases processLink_trace_eq env col l with ⟨_, ht⟩ | ⟨_, tail, _, ht⟩ <;>
          simp [ht]
      · exact List.mem_append.2 (Or.inr (ih _ (by simpa using hab) l hl))

lemma processLink_event_of_empty (env : Env) (col : Collection) (l₀ : Str) {e : Event}
    (he : e ∈ (processLink env col l₀).trace) (hl : env.extract e.link = []) :
    e = Event.extractEv e.link := by
  have hlink := processLink_trace_link env col l₀ e he
  rcases processLink_trace_eq env col l₀ with ⟨_, ht⟩ | ⟨hne, tail, htail, ht⟩
  · rw [ht] at he
    simp only [List.mem_singleton] at he
    rw [he]
    rfl
  · rw [hlink] at hl
    rw [hl] at hne
    simp at hne

lemma runLoop_event_of_empty (env : Env) (col : Collection) (links : List Str) {e : Event}
    (he : e ∈ (runLoop env col links).trace) (hl : env.extract e.link = []) :
    e = Event.extractEv e.link := by
  induction links generalizing col with
  | nil => simp [runLoop] at he
  | cons l₀ ls ih =>
    rw [runLoop] at he
    by_cases hab : (processLink env col l₀).aborted
    · simp only [hab, if_true] at he
      exact processLink_event_of_empty env col l₀ he hl
    · simp only [hab, if_false] at he
      rcases List.mem_append.1 he with he | he
      · exact processLink_event_of_empty env col l₀ he hl
      · exact ih _ he

lemma processedLinks_append (t₁ t₂ : List Event) :
    processedLinks (t₁ ++ t₂) = processedLinks t₁ ++ processedLinks t₂ :=
  List.filterMap_append t₁ t₂ _

lemma processedLinks_polls (l : Str) (docs : List QuestionDoc) :
    processedLinks (docs.map (fun _ => Event.sendPollEv l)) = [] := by
  simp [processedLinks]

lemma processLink_processed (env : Env) (col : Collection) (l : Str) :
    processedLinks (processLink env col l).trace = [l] := by
  rcases processLink_trace_eq env col l with ⟨_, ht⟩ | ⟨_, tail, htail, ht⟩ <;> rw [ht]
  · rfl
  · rcases htail with rfl | rfl | rfl <;>
      simp [processedLinks, List.filterMap_append, List.filterMap_cons]

lemma runLoop_processed (env : Env) (col : Collection) (links : List Str) :
    processedLinks (runLoop env col links).trace <+: links ∧
    ((runLoop env col links).aborted = false →
      processedLinks (runLoop env col links).trace = links) := by
  induction links generalizing col with
  | nil => exact ⟨by simp [runLoop, processedLinks], fun _ => by simp [runLoop, processedLinks]⟩
  | cons l ls ih =>
    rw [runLoop]
    by_cases hab : (processLink env col l).aborted
    · simp only [hab, if_true]
      refine ⟨?_, ?_⟩
      · rw [processLink_processed]
        exact ⟨ls, rfl⟩
      · intro hcontra
        exact absurd hcontra (by decide)
    · simp only [hab, if_false]
      obtain ⟨hpre, heq⟩ := ih (processLink env col l).collection
      refine ⟨?_, ?_⟩
      · show processedLinks ((processLink env col l).trace ++ _) <+: l :: ls
        rw [processedLinks_append, processLink_processed]
        obtain ⟨t, ht⟩ := hpre
        refine ⟨t, ?_⟩
        rw [List.append_assoc, ht]
        rfl
      · intro hf
        show processedLinks ((processLink env col l).trace ++ _) = l :: ls
        rw [processedLinks_append, processLink_processed, heq hf]
        rfl

lemma processLink_temps (env : Env) (col : Collection) (l : Str)
    (hr : env.renderOk l = true) : (processLink env col l).temps = [] := by
  by_cases hd : (env.extract l).isEmpty
  · simp [processLink, hd]
  · by_cases ht : env.templateOk l <;> simp [processLink, hd, ht, hr]

lemma runLoop_temps (env : Env) (col : Collection) (links : List Str)
    (h : ∀ l, env.renderOk l = true) : (runLoop env col links).temps = [] := by
  induction links generalizing col with
  | nil => rfl
  | cons l ls ih =>
    rw [runLoop]
    by_cases hab : (processLink env col l).aborted
    · simp only [hab, if_true]
      exact processLink_temps env col l (h l)
    · have h1 := processLink_temps env col l (h l)
      have h2 := ih (processLink env col l).collection
      simp [hab, h1, h2]

lemma runLoop_all_empty (env : Env) (col : Collection) (links : List Str)
    (h : ∀ l ∈ links, env.extract l = []) :
    runLoop env col links = ⟨col, links.map Event.extractEv, [], false⟩ := by
  induction links generalizing col with
  | nil => rfl
  | cons l ls ih =>
    have hl : env.extract l = [] := h l (List.mem_cons_self _ _)
    have hp : processLink env col l = ⟨col, [Event.extractEv l], [], false⟩ := by
      simp [processLink, hl]
    simp only [runLoop, hp]
    rw [ih col (fun x hx => h x (List.mem_cons_of_mem _ hx))]
    simp

lemma runLoop_stores_nonempty (env : Env) (col : Collection) (links : List Str) {l : Str}
    (hab : (runLoop env col links).aborted = false)
    (hl : l ∈ links) (hne : env.extract l ≠ []) (hnil : l ≠ []) :
    l ∈ get_scraped_urls (runLoop env col links).collection := by
  induction links generalizing col with
  | nil => simp at hl
  | cons l₀ ls ih =>
    rw [runLoop] at hab ⊢
    by_cases hab₀ : (processLink env col l₀).aborted
    · simp only [hab₀, if_true] at hab
      exact absurd hab (by decide)
    · simp only [hab₀, if_false] at hab ⊢
      rcases List.mem_cons.1 hl with rfl | hl
      · have hst : l ∈ get_scraped_urls (processLink env col l).collection := by
          rcases processLink_collection_cases env col l with ⟨he, _⟩ | ⟨_, hc⟩
          · exact absurd (List.isEmpty_iff.1 he) hne
          · rw [hc, store_single]
            exact urls_upsert_self hnil
        exact urls_runLoop_superset env _ ls hst
      · exact ih _ hab hl

lemma mem_validLinks {env : Env} {stored : List Str} {u : Str} :
    u ∈ validLinks env stored ↔ u ∈ discoveredCandidates env ∧ u ∉ stored := by
  unfold validLinks
  rw [List.mem_filter]
  simp

lemma urljoinBix_ne_nil (href : Str) : urljoinBix href ≠ [] := by
  unfold urljoinBix
  split
  · rename_i h
    intro hnil
    rw [hnil] at h
    exact absurd h (by decide)
  · split <;> intro hnil <;> rcases List.append_eq_nil.1 hnil with ⟨h1, h2⟩
    · exact absurd h1 (by decide)
    · exact absurd h1 (by decide)

lemma mem_discovered_ne_nil {env : Env} {u : Str} (h : u ∈ discoveredCandidates env) :
    u ≠ [] := by
  obtain ⟨href, _, rfl⟩ := List.mem_map.1 h
  exact urljoinBix_ne_nil href

lemma dateLe_trans {a b c : Nat × Nat × Nat} (h1 : dateLe a b = true)
    (h2 : dateLe b c = true) : dateLe a c = true := by
  simp only [dateLe, decide_eq_true_eq] at h1 h2 ⊢
  omega

lemma dateLe_total (a b : Nat × Nat × Nat) : dateLe a b = true ∨ dateLe b a = true := by
  simp only [dateLe, decide_eq_true_eq]
  omega

instance : IsTrans Str LinkOrder := ⟨fun _ _ _ h1 h2 => dateLe_trans h1 h2⟩

instance : IsTotal Str LinkOrder := ⟨fun _ _ => dateLe_total _ _⟩

lemma sortLinksByDate_of_parsable {links : List Str}
    (h : ∀ l ∈ links, (linkDate l).isSome) :
    sortLinksByDate links = some (links.insertionSort LinkOrder) := by
  unfold sortLinksByDate
  rw [if_pos]
  exact List.all_eq_true.2 (fun l hl => by simpa using h l hl)

lemma sortLinksByDate_some {links s : List Str} (h : sortLinksByDate links = some s) :
    (∀ l ∈ links, (linkDate l).isSome) ∧ s = links.insertionSort LinkOrder := by
  unfold sortLinksByDate at h
  split at h
  · rename_i hall
    exact ⟨fun l hl => by simpa using List.all_eq_true.1 hall l hl,
      (Option.some_inj.1 h).symm⟩
  · cases h

/-- Case analysis of a whole run: nothing new, sort failure, or the loop over
    the sorted valid links. -/
lemma runMain_eq_cases (env : Env) (col0 : Collection) :
    ((validLinks env (storedOf col0)).isEmpty = true ∧
      runMain env col0 = ⟨clean_up_documents_without_url col0, [], [], false⟩) ∨
    ((validLinks env (storedOf col0)).isEmpty = false ∧
      sortLinksByDate (validLinks env (storedOf col0)) = none ∧
      runMain env col0 = ⟨clean_up_documents_without_url col0, [], [], true⟩) ∨
    (∃ sorted, (validLinks env (storedOf col0)).isEmpty = false ∧
      sortLinksByDate (validLinks env (storedOf col0)) = some sorted ∧
      runMain env col0 = runLoop env (clean_up_documents_without_url col0) sorted) := by
  by_cases hv : (validLinks env (storedOf col0)).isEmpty
  · refine Or.inl ⟨hv, ?_⟩
    have hv' : (validLinks env
        (get_scraped_urls (clean_up_documents_without_url col0))).isEmpty = true := hv
    simp [runMain, hv']
  · cases hs : sortLinksByDate (validLinks env (storedOf col0)) with
    | none =>
      refine Or.inr (Or.inl ⟨by simpa using hv, rfl, ?_⟩)
      have hv' : (validLinks env
          (get_scraped_urls (clean_up_documents_without_url col0))).isEmpty = false := by
        simpa using hv
      have hs' : sortLinksByDate (validLinks env
          (get_scraped_urls (clean_up_documents_without_url col0))) = none := hs
      simp [runMain, hv', hs']
    | some sorted =>
      refine Or.inr (Or.inr ⟨sorted, by simpa using hv, rfl, ?_⟩)
      have hv' : (validLinks env
          (get_scraped_urls (clean_up_documents_without_url col0))).isEmpty = false := by
        simpa using hv
      have hs' : sortLinksByDate (validLinks env
          (get_scraped_urls (clean_up_documents_without_url col0))) = some sorted := hs
      simp [runMain, hv', hs']

/-! ## Run-level lemmas -/

lemma runMain_ordered (env : Env) (col0 : Collection) :
    OrderedTrace (runMain env col0).trace := by
  rcases runMain_eq_cases env col0 with ⟨_, he⟩ | ⟨_, _, he⟩ | ⟨sorted, _, _, he⟩ <;> rw [he]
  · exact orderedTrace_nil
  · exact orderedTrace_nil
  · exact orderedTrace_runLoop env _ sorted

lemma runMain_extract_valid (env : Env) (col0 : Collection) {l : Str}
    (h : Event.extractEv l ∈ (runMain env col0).trace) :
    l ∈ validLinks env (storedOf col0) := by
  rcases runMain_eq_cases env col0 with ⟨_, he⟩ | ⟨_, _, he⟩ | ⟨sorted, _, hs, he⟩ <;>
    rw [he] at h
  · simp at h
  · simp at h
  · have hl : l ∈ sorted := by
      simpa [Event.link] using event_link_runLoop env _ sorted _ h
    obtain ⟨_, hseq⟩ := sortLinksByDate_some hs
    subst hseq
    exact (List.perm_insertionSort LinkOrder _).subset hl

lemma runMain_markSeen_stored (env : Env) (col0 : Collection) {l : Str}
    (h : Event.markSeenEv l ∈ (runMain env col0).trace) :
    l ∈ get_scraped_urls (runMain env col0).collection := by
  rcases runMain_eq_cases env col0 with ⟨_, he⟩ | ⟨_, _, he⟩ | ⟨sorted, _, hs, he⟩ <;>
    rw [he] at h ⊢
  · simp at h
  · simp at h
  · have hl : l ∈ sorted := by
      simpa [Event.link] using event_link_runLoop env _ sorted _ h
    obtain ⟨_, hseq⟩ := sortLinksByDate_some hs
    have hvm : l ∈ validLinks env (storedOf col0) := by
      rw [hseq] at hl
      exact (List.perm_insertionSort LinkOrder _).subset hl
    have hnil : l ≠ [] := mem_discovered_ne_nil (mem_validLinks.1 hvm).1
    exact markSeen_runLoop_stored env _ sorted hnil h

lemma runMain_urls_superset (env : Env) (col0 : Collection) {u : Str}
    (h : u ∈ get_scraped_urls col0) :
    u ∈ get_scraped_urls (runMain env col0).collection := by
  have h1 : u ∈ get_scraped_urls (clean_up_documents_without_url col0) := by
    rw [get_scraped_urls_clean_up]
    exact h
  rcases runMain_eq_cases env col0 with ⟨_, he⟩ | ⟨_, _, he⟩ | ⟨sorted, _, _, he⟩ <;> rw [he]
  · exact h1
  · exact h1
  · exact urls_runLoop_superset env _ sorted h1

lemma runMain_urls_cases (env : Env) (col0 : Collection) {u : Str}
    (h : u ∈ get_scraped_urls (runMain env col0).collection) :
    u ∈ get_scraped_urls col0 ∨
      (u ∈ validLinks env (storedOf col0) ∧ env.extract u ≠ []) := by
  rcases runMain_eq_cases env col0 with ⟨_, he⟩ | ⟨_, _, he⟩ | ⟨sorted, _, hs, he⟩ <;>
    rw [he] at h
  · exact Or.inl (by rwa [get_scraped_urls_clean_up] at h)
  · exact Or.inl (by rwa [get_scraped_urls_clean_up] at h)
  · rcases urls_runLoop_cases env _ sorted h with h | ⟨hm, hx⟩
    · exact Or.inl (by rwa [get_scraped_urls_clean_up] at h)
    · obtain ⟨_, hseq⟩ := sortLinksByDate_some hs
      rw [hseq] at hm
      exact Or.inr ⟨(List.perm_insertionSort LinkOrder _).subset hm, hx⟩

lemma runMain_not_aborted_extract (env : Env) (col0 : Collection)
    (hab : (runMain env col0).aborted = false) {l : Str}
    (hl : l ∈ validLinks env (storedOf col0)) :
    Event.extractEv l ∈ (runMain env col0).trace := by
  rcases runMain_eq_cases env col0 with ⟨hv, he⟩ | ⟨_, _, he⟩ | ⟨sorted, _, hs, he⟩
  · rw [List.isEmpty_iff.1 hv] at hl
    simp at hl
  · rw [he] at hab
    cases hab
  · rw [he] at hab ⊢
    obtain ⟨_, hseq⟩ := sortLinksByDate_some hs
    have hm : l ∈ sorted := by
      rw [hseq]
      exact ((List.perm_insertionSort LinkOrder _).mem_iff).2 hl
    exact extract_runLoop_of_mem env _ sorted hab l hm

lemma runMain_stores_valid (env : Env) (col0 : Collection)
    (hab : (runMain env col0).aborted = false) {l : Str}
    (hl : l ∈ validLinks env (storedOf col0)) (hne : env.extract l ≠ []) :
    l ∈ get_scraped_urls (runMain env col0).collection := by
  rcases runMain_eq_cases env col0 with ⟨hv, he⟩ | ⟨_, _, he⟩ | ⟨sorted, _, hs, he⟩
  · rw [List.isEmpty_iff.1 hv] at hl
    simp at hl
  · rw [he] at hab
    cases hab
  · rw [he] at hab ⊢
    obtain ⟨_, hseq⟩ := sortLinksByDate_some hs
    have hm : l ∈ sorted := by
      rw [hseq]
      exact ((List.perm_insertionSort LinkOrder _).mem_iff).2 hl
    have hnil : l ≠ [] := mem_discovered_ne_nil (mem_validLinks.1 hl).1
    exact runLoop_stores_nonempty env _ sorted hab hm hne hnil

lemma runMain_event_of_empty (env : Env) (col0 : Collection) {e : Event}
    (he : e ∈ (runMain env col0).trace) (hl : env.extract e.link = []) :
    e = Event.extractEv e.link := by
  rcases runMain_eq_cases env col0 with ⟨_, heq⟩ | ⟨_, _, heq⟩ | ⟨sorted, _, _, heq⟩ <;>
    rw [heq] at he
  · simp at he
  · simp at he
  · exact runLoop_event_of_empty env _ sorted he hl

lemma valid_subset_after (env : Env) (col0 : Collection) {l : Str}
    (hl : l ∈ validLinks env (storedOf (runMain env col0).collection)) :
    l ∈ validLinks env (storedOf col0) := by
  obtain ⟨hc, hns⟩ := mem_validLinks.1 hl
  refine mem_validLinks.2 ⟨hc, fun hs => hns ?_⟩
  rw [storedOf_eq] at hs ⊢
  exact runMain_urls_superset env col0 hs

/-! ## Claim theorems -/

/-- C1: in every run, every identifier is marked seen only after its own
    extraction and before any converter invocation or delivery attempt for its
    content (in every trace prefix, mark-seen events never outnumber
    extractions of the same link, converter and document-send events never
    outnumber mark-seens, and a poll send appears only after a mark-seen); and
    an identifier once marked seen -- even in a run whose rendering or delivery
    then failed -- is never re-extracted by a later run started from the
    resulting store, whatever index that later run sees. -/
theorem mark_seen_timing (env : Env) (col0 : Collection) :
    OrderedTrace (runMain env col0).trace ∧
    (∀ (env2 : Env) (l : Str), Event.markSeenEv l ∈ (runMain env col0).trace →
      Event.extractEv l ∉ (runMain env2 (runMain env col0).collection).trace) := by
  refine ⟨runMain_ordered env col0, ?_⟩
  intro env2 l hmark hextr
  have hstored := runMain_markSeen_stored env col0 hmark
  have hvalid := runMain_extract_valid env2 _ hextr
  have hns := (mem_validLinks.1 hvalid).2
  rw [storedOf_eq] at hns
  exact hns hstored

/-- C1 witness: in a concrete successful run the link is marked seen, and a
    second run from the resulting store does not extract it again. -/
theorem mark_seen_timing_witness :
    Event.markSeenEv linkOct5 ∈ (runMain envC1 []).trace ∧
    Event.extractEv linkOct5 ∉ (runMain envC1 (runMain envC1 []).collection).trace :=
  ⟨by decide, (mark_seen_timing envC1 []).2 envC1 linkOct5 (by decide)⟩

/-- C2 counterexample: with one discovered candidate whose extraction yields no
    records, the run completes but stores nothing for it, so seen_ids() after
    the run is not a superset of the candidates discovered during the run. -/
theorem idempotent_superset_counterexample :
    (runMain envC2 []).aborted = false ∧
    linkOct5 ∈ discoveredCandidates envC2 ∧
    linkOct5 ∉ get_scraped_urls (runMain envC2 []).collection := by
  refine ⟨by decide, by decide, by decide⟩

/-- C2 amended: provided the run is not aborted, seen_ids() afterwards contains
    every discovered candidate that was already seen or whose extraction
    yielded at least one record; and a second run from the resulting store over
    the unchanged environment attempts no delivery at all (no poll and no
    document send) and completes. -/
theorem idempotent_ingestion (env : Env) (col0 : Collection)
    (hab : (runMain env col0).aborted = false) :
    (∀ c ∈ discoveredCandidates env,
      (env.extract c ≠ [] ∨ c ∈ get_scraped_urls col0) →
      c ∈ get_scraped_urls (runMain env col0).collection) ∧
    (runMain env (runMain env col0).collection).trace.filter isDeliveryEv = [] ∧
    (runMain env (runMain env col0).collection).aborted = false := by
  have hpart1 : ∀ c ∈ discoveredCandidates env,
      (env.extract c ≠ [] ∨ c ∈ get_scraped_urls col0) →
      c ∈ get_scraped_urls (runMain env col0).collection := by
    intro c hc hor
    rcases hor with hne | hseen
    · by_cases hstored : c ∈ storedOf col0
      · rw [storedOf_eq] at hstored
        exact runMain_urls_superset env col0 hstored
      · exact runMain_stores_valid env col0 hab (mem_validLinks.2 ⟨hc, hstored⟩) hne
    · exact runMain_urls_superset env col0 hseen
  refine ⟨hpart1, ?_⟩
  have hvalid2 : ∀ l ∈ validLinks env (storedOf (runMain env col0).collection),
      env.extract l = [] := by
    intro l hl
    by_contra hne
    obtain ⟨hc, hns⟩ := mem_validLinks.1 hl
    exact hns (by rw [storedOf_eq]; exact hpart1 l hc (Or.inl hne))
  rcases runMain_eq_cases env (runMain env col0).collection with
    ⟨_, he⟩ | ⟨hv2, hs2, he⟩ | ⟨sorted2, _, hs2, he⟩
  · rw [he]
    exact ⟨rfl, rfl⟩
  · exfalso
    have hparse2 : ∀ l ∈ validLinks env (storedOf (runMain env col0).collection),
        (linkDate l).isSome := by
      intro l hl
      have hl1 : l ∈ validLinks env (storedOf col0) := valid_subset_after env col0 hl
      rcases runMain_eq_cases env col0 with ⟨hv1, _⟩ | ⟨_, _, he1⟩ | ⟨sorted1, _, hs1, _⟩
      · rw [List.isEmpty_iff.1 hv1] at hl1
        simp at hl1
      · rw [he1] at hab
        cases hab
      · exact (sortLinksByDate_some hs1).1 l hl1
    rw [sortLinksByDate_of_parsable hparse2] at hs2
    cases hs2
  · rw [he]
    obtain ⟨_, hseq2⟩ := sortLinksByDate_some hs2
    have hempty2 : ∀ l ∈ sorted2, env.extract l = [] := by
      intro l hl
      apply hvalid2
      rw [hseq2] at hl
      exact (List.perm_insertionSort LinkOrder _).subset hl
    rw [runLoop_all_empty env _ sorted2 hempty2]
    constructor
    · show (sorted2.map Event.extractEv).filter isDeliveryEv = []
      simp [List.filter_map, isDeliveryEv, Function.comp]
    · rfl

/-- C2 witness: a concrete completed run stores its successfully extracted
    candidate, and the second run over the unchanged environment delivers
    nothing. -/
theorem idempotent_ingestion_witness :
    (runMain envC2w []).aborted = false ∧
    linkOct3 ∈ get_scraped_urls (runMain envC2w []).collection ∧
    (runMain envC2w (runMain envC2w []).collection).trace.filter isDeliveryEv = [] :=
  ⟨by decide,
    (idempotent_ingestion envC2w [] (by decide)).1 linkOct3 (by decide)
      (Or.inl (by decide)),
    (idempotent_ingestion envC2w [] (by decide)).2.1⟩

/-- C3 counterexample: on a schedule whose first network call times out and
    whose second call would succeed, send_pdf_to_telegram makes exactly one
    call and does not deliver -- a timeout-class failure is not retried (the
    claimed retry-up-to-3 discipline would have delivered on the second
    attempt). -/
theorem send_pdf_no_retry_counterexample :
    (send_pdf_to_telegram timeoutThenSuccess).1 = 1 ∧
    (send_pdf_to_telegram timeoutThenSuccess).2 ≠ DeliveryResult.delivered := by
  refine ⟨by decide, by decide⟩

/-- C3 amended: document delivery makes exactly one network attempt whatever
    the channel would answer; a TelegramError -- the timeout class included --
    is logged and the task abandoned without any retry; a success delivers; a
    non-TelegramError failure propagates. -/
theorem send_pdf_single_attempt (outcomes : Nat → SendOutcome) :
    (send_pdf_to_telegram outcomes).1 = 1 ∧
    ((outcomes 0 = SendOutcome.timeout ∨ outcomes 0 = SendOutcome.telegramError) →
      (send_pdf_to_telegram outcomes).2 = DeliveryResult.abandonedLogged) ∧
    (outcomes 0 = SendOutcome.success →
      (send_pdf_to_telegram outcomes).2 = DeliveryResult.delivered) ∧
    (outcomes 0 = SendOutcome.otherError →
      (send_pdf_to_telegram outcomes).2 = DeliveryResult.raised) := by
  refine ⟨?_, ?_, ?_, ?_⟩
  · cases h : outcomes 0 <;> simp [send_pdf_to_telegram, h]
  · rintro (h | h) <;> simp [send_pdf_to_telegram, h]
  · intro h
    simp [send_pdf_to_telegram, h]
  · intro h
    simp [send_pdf_to_telegram, h]

/-- C3 witness: the single-attempt behaviour evaluated on the concrete
    timeout-then-success schedule. -/
theorem send_pdf_single_attempt_witness :
    timeoutThenSuccess 0 = SendOutcome.timeout ∧
    (send_pdf_to_telegram timeoutThenSuccess).2 = DeliveryResult.abandonedLogged :=
  ⟨rfl, (send_pdf_single_attempt timeoutThenSuccess).2.1 (Or.inl rfl)⟩

lemma prepareAux_types (i : Nat) (qs : List QuestionDoc) :
    (prepareAux i qs).map ContentItem.type =
      (qs.map (fun q =>
        [BlockType.question, BlockType.options]
          ++ q.options.map (fun _ => BlockType.options)
          ++ [BlockType.answer, BlockType.explanation, BlockType.space])).flatten := by
  induction qs generalizing i with
  | nil => rfl
  | cons q qs ih =>
    simp only [prepareAux, List.map_append, List.map_cons, List.flatten_cons, ih (i + 1)]
    congr 2
    simp only [recordItems, List.map_append, List.map_cons, List.map_map]
    congr 1
    have hc : (ContentItem.type ∘ fun p : Nat × Str =>
        (⟨BlockType.options, optionLetter p.1 ++ ". ".toList ++ p.2⟩ : ContentItem)) =
        fun _ => BlockType.options := rfl
    rw [hc, List.map_const', List.map_const', List.enum_length]
    simp

lemma prepareAux_questions (i : Nat) (qs : List QuestionDoc) :
    ((prepareAux i qs).filter (fun c => decide (c.type = BlockType.question))).map
        ContentItem.text =
      (qs.enumFrom i).map
        (fun p => "Question ".toList ++ natStr p.1 ++ ": ".toList ++ p.2.question) := by
  induction qs generalizing i with
  | nil => rfl
  | cons q qs ih =>
    simp only [prepareAux, List.filter_append, List.map_append, List.enumFrom,
      List.map_cons]
    rw [ih (i + 1)]
    simp [recordItems, List.filter_cons, List.filter_append, List.filter_map,
      Function.comp]

/-- C4: the assembled document is the template followed by one paragraph per
    content entry in list order and the fixed promotional paragraph (with its
    hyperlink) appended last, unconditionally; the content entries preserve the
    record order and, inside each record, the field order question, then the
    options in stored order, then answer, then explanation (then the spacer);
    and the question headings appear once per record, in input order, numbered
    from one. -/
theorem assembly_preserves_order (doc : List Paragraph) (qs : List QuestionDoc) :
    (insert_content_from_top doc (prepare_content_list qs) =
      doc ++ (prepare_content_list qs).map (fun c => Paragraph.mk c none)
        ++ [promoParagraph]) ∧
    ((prepare_content_list qs).map ContentItem.type =
      (qs.map (fun q =>
        [BlockType.question, BlockType.options]
          ++ q.options.map (fun _ => BlockType.options)
          ++ [BlockType.answer, BlockType.explanation, BlockType.space])).flatten) ∧
    (((prepare_content_list qs).filter
        (fun c => decide (c.type = BlockType.question))).map ContentItem.text =
      (qs.enumFrom 1).map
        (fun p => "Question ".toList ++ natStr p.1 ++ ": ".toList ++ p.2.question)) ∧
    ((insert_content_from_top doc (prepare_content_list qs)).getLast? =
      some promoParagraph) := by
  refine ⟨rfl, prepareAux_types 1 qs, prepareAux_questions 1 qs, ?_⟩
  unfold insert_content_from_top
  exact List.getLast?_concat _

/-- C5 counterexample: the claim quantifies over every maximum length; for
    maximum length 2 the Python negative slice text[:-1] makes truncate_text of
    the four-character string abcd six characters long instead of exactly
    two. -/
theorem truncate_short_limit_counterexample :
    ("abcd".toList.length > 2) ∧
    (truncate_text ("abcd".toList) 2).length = 6 ∧
    (truncate_text ("abcd".toList) 2).length ≠ 2 := by
  refine ⟨by decide, by decide, by decide⟩

/-- C5 amended: for every maximum length L with 3 ≤ L (every call site passes
    300, 100 or 200): a string of length at most L is returned unchanged, and a
    longer string truncates to exactly L characters whose last three are the
    ellipsis dots; the 305-to-300 poll-question instance is the witness
    below. -/
theorem truncate_spec (text : Str) (L : Nat) (hL : 3 ≤ L) :
    (text.length ≤ L → truncate_text text L = text) ∧
    (L < text.length →
      (truncate_text text L).length = L ∧
      (truncate_text text L).drop (L - 3) = ['.', '.', '.']) := by
  constructor
  · intro h
    unfold truncate_text
    rw [if_neg (by omega)]
  · intro h
    unfold truncate_text
    rw [if_pos (by omega)]
    unfold pyTake
    rw [if_neg (by omega)]
    have htn : ((L : Int) - 3).toNat = L - 3 := by omega
    rw [htn]
    have hlen : (text.take (L - 3)).length = L - 3 := by
      rw [List.length_take]
      omega
    refine ⟨?_, List.drop_left' hlen⟩
    rw [List.length_append, hlen]
    have h3 : (['.', '.', '.'] : Str).length = 3 := rfl
    rw [h3]
    omega

/-- C5 witness: the truncation boundary at the 305-character question and
    maximum length 300. -/
theorem truncate_spec_witness :
    3 ≤ 300 ∧
    (truncate_text (List.replicate 305 'a') 300).length = 300 ∧
    (truncate_text (List.replicate 305 'a') 300).drop (300 - 3) = ['.', '.', '.'] := by
  have h := (truncate_spec (List.replicate 305 'a') 300 (by norm_num)).2
    (by rw [List.length_replicate]; norm_num)
  exact ⟨by norm_num, h.1, h.2⟩

/-- C6: the answer-key letter resolves to a zero-based option index mapping A
    to 0, B to 1, and so on -- key C with four options resolves to index 2; a
    key outside the first k option letters (such as E with four options) makes
    send_poll skip the record instead of sending a default or guessed index;
    and whenever a poll is produced, its correct index is a valid position
    whose letter is exactly the stored key. -/
theorem answer_key_resolution :
    resolveKey ("C".toList) 4 = some 2 ∧
    resolveKey ("E".toList) 4 = none ∧
    (∀ q : QuestionDoc, resolveKey q.value_in_braces q.options.length = none →
      send_poll q = none) ∧
    (∀ (q : QuestionDoc) (i : Nat),
      resolveKey q.value_in_braces q.options.length = some i →
      i < q.options.length ∧ optionLetter i = q.value_in_braces ∧
      send_poll q = some ⟨truncate_text q.question 300,
        q.options.map (fun o => truncate_text o 100), i,
        truncate_text q.explanation 200⟩) := by
  refine ⟨by decide, by decide, ?_, ?_⟩
  · intro q h
    simp [send_poll, List.length_map, h]
  · intro q i h
    have h' := h
    unfold resolveKey at h'
    obtain ⟨a, ha, hf⟩ := List.exists_of_findSome?_eq_some h'
    have hai : a = i ∧ optionLetter a = q.value_in_braces := by
      by_cases hcl : optionLetter a = q.value_in_braces
      · rw [if_pos hcl] at hf
        exact ⟨Option.some_inj.1 hf, hcl⟩
      · rw [if_neg hcl] at hf
        cases hf
    obtain ⟨rfl, hletter⟩ := hai
    refine ⟨List.mem_range.1 ha, hletter, ?_⟩
    simp [send_poll, List.length_map, h]

/-- C6 witness: the concrete four-option record keyed C is delivered with
    correct index 2. -/
theorem answer_key_resolution_witness :
    resolveKey quizKeyC.value_in_braces quizKeyC.options.length = some 2 ∧
    (2 < quizKeyC.options.length ∧ optionLetter 2 = quizKeyC.value_in_braces ∧
      send_poll quizKeyC = some ⟨truncate_text quizKeyC.question 300,
        quizKeyC.options.map (fun o => truncate_text o 100), 2,
        truncate_text quizKeyC.explanation 200⟩) :=
  ⟨by decide, answer_key_resolution.2.2.2 quizKeyC 2 (by decide)⟩

/-- C7: a stored document lacking the url field contributes nothing to
    seen_ids() -- which is total, hence never raises; the cleanup pass deletes
    every document lacking the field and keeps every document that has one; and
    the purge leaves seen_ids() unchanged. -/
theorem store_self_heal :
    (∀ (col : Collection) (u : Str), u ∈ get_scraped_urls col →
      ∃ d ∈ col, d.url = some u) ∧
    (∀ (col : Collection) (d : StoreDoc), d ∈ col → d.url = none →
      d ∉ clean_up_documents_without_url col) ∧
    (∀ (col : Collection) (d : StoreDoc), d ∈ col → d.url ≠ none →
      d ∈ clean_up_documents_without_url col) ∧
    (∀ col : Collection,
      get_scraped_urls (clean_up_documents_without_url col) = get_scraped_urls col) := by
  refine ⟨?_, ?_, ?_, get_scraped_urls_clean_up⟩
  · intro col u hu
    exact (mem_get_scraped_urls.1 hu).1
  · intro col d _ hnone hmem
    have hs := (List.mem_filter.1 hmem).2
    rw [hnone] at hs
    cases hs
  · intro col d hd hsome
    refine List.mem_filter.2 ⟨hd, ?_⟩
    rcases hu : d.url with _ | v
    · exact absurd hu hsome
    · simp [hu]

/-- C7 witness: a concrete malformed document is purged while the well-formed
    one survives with an unchanged seen set. -/
theorem store_self_heal_witness :
    StoreDoc.mk none ∉
      clean_up_documents_without_url [⟨none⟩, ⟨some ("u".toList)⟩] :=
  store_self_heal.2.1 [⟨none⟩, ⟨some ("u".toList)⟩] ⟨none⟩ (by decide) rfl

/-- C8 counterexample: in a run where extraction succeeds but the docx-to-pdf
    conversion fails, the exception propagates without a try/finally and the
    temporary docx of the failing link is left on disk -- so not every exit
    path of a run removes the temporary files it created. -/
theorem temp_cleanup_counterexample :
    (runMain envC8 []).temps = [linkOct7] ∧ (runMain envC8 []).temps ≠ [] := by
  refine ⟨by decide, by decide⟩

/-- C8 amended: whenever the converter succeeds on every link, a run leaves no
    temporary file behind -- in particular a caught document-send failure or an
    aborting template-download failure leaves nothing, since the send failure
    is caught before the cleanup lines and the download happens before any
    temporary file exists; only a conversion failure (a converter error or its
    missing output file, both of which raise) leaks the temporary docx. -/
theorem temps_removed (env : Env) (col0 : Collection)
    (h : ∀ l, env.renderOk l = true) : (runMain env col0).temps = [] := by
  rcases runMain_eq_cases env col0 with ⟨_, he⟩ | ⟨_, _, he⟩ | ⟨sorted, _, _, he⟩
  · rw [he]
  · rw [he]
  · rw [he]
    exact runLoop_temps env _ sorted h

/-- C8 witness: a concrete all-successful run ends with no temporary files. -/
theorem temps_removed_witness : (runMain envC8w []).temps = [] :=
  temps_removed envC8w [] (fun _ => rfl)

/-- C9 counterexample: with one discovered link lacking a parsable date token
    the sort key raises, the exception propagates, and the run aborts having
    processed nothing -- there is no fallback to discovery order. -/
theorem order_fallback_counterexample :
    (runMain envC9 []).aborted = true ∧ (runMain envC9 []).trace = [] := by
  refine ⟨by decide, by decide⟩

/-- C9 amended: when every new valid link carries a parsable date token, links
    are processed in ascending chronological order: the processed sequence is a
    prefix of the stable date-sort of the valid links, pairwise ordered by
    date, and equal to the whole sorted list when the run completes; a link
    without a parsable token instead aborts the run (see the counterexample);
    only the caption helper extract_date_from_url falls back, to today's
    date. -/
theorem chronological_processing (env : Env) (col0 : Collection)
    (hdates : ∀ l ∈ validLinks env (storedOf col0), (linkDate l).isSome) :
    processedLinks (runMain env col0).trace <+:
      (validLinks env (storedOf col0)).insertionSort LinkOrder ∧
    List.Pairwise LinkOrder (processedLinks (runMain env col0).trace) ∧
    ((runMain env col0).aborted = false →
      processedLinks (runMain env col0).trace =
        (validLinks env (storedOf col0)).insertionSort LinkOrder) ∧
    (∀ (today : Nat × Nat × Nat) (url : Str), linkDate url = none →
      extract_date_from_url today url = formatDate today) := by
  have hsorted := List.sorted_insertionSort LinkOrder (validLinks env (storedOf col0))
  rcases runMain_eq_cases env col0 with ⟨hv, he⟩ | ⟨_, hs, he⟩ | ⟨sorted, _, hs, he⟩
  · rw [he, List.isEmpty_iff.1 hv]
    refine ⟨?_, ?_, ?_, ?_⟩
    · simp [processedLinks]
    · simp [processedLinks]
    · intro
      simp [processedLinks]
    · intro today url h
      simp [extract_date_from_url, h]
  · rw [sortLinksByDate_of_parsable hdates] at hs
    cases hs
  · rw [he]
    obtain ⟨_, hseq⟩ := sortLinksByDate_some hs
    subst hseq
    obtain ⟨hpre, hfull⟩ := runLoop_processed env (clean_up_documents_without_url col0)
      ((validLinks env (storedOf col0)).insertionSort LinkOrder)
    refine ⟨hpre, ?_, hfull, ?_⟩
    · exact List.Pairwise.sublist hpre.sublist hsorted
    · intro today url h
      simp [extract_date_from_url, h]

/-- C9 witness: with two dated links listed newest first the completed run
    processes them in ascending date order. -/
theorem chronological_processing_witness :
    (runMain envC9w []).aborted = false ∧
    processedLinks (runMain envC9w []).trace =
      (validLinks envC9w (storedOf [])).insertionSort LinkOrder :=
  ⟨by decide, (chronological_processing envC9w [] (by decide)).2.2.1 (by decide)⟩

/-- C10: a discovered-and-new link whose extraction yields no records (a fetch
    failure of the detail page yields exactly that) is never added to the
    store, gets no mark-seen, poll or document-send event in the run, is still
    a valid candidate of the next run over the unchanged environment, and that
    next run fetches it again whenever it completes. -/
theorem empty_extraction_refetch (env : Env) (col0 : Collection) (link : Str)
    (hmem : link ∈ validLinks env (storedOf col0))
    (hempty : env.extract link = []) :
    link ∉ get_scraped_urls (runMain env col0).collection ∧
    Event.markSeenEv link ∉ (runMain env col0).trace ∧
    Event.sendPollEv link ∉ (runMain env col0).trace ∧
    Event.sendPdfEv link ∉ (runMain env col0).trace ∧
    link ∈ validLinks env (storedOf (runMain env col0).collection) ∧
    ((runMain env (runMain env col0).collection).aborted = false →
      Event.extractEv link ∈ (runMain env (runMain env col0).collection).trace) := by
  obtain ⟨hdisc, hns0⟩ := mem_validLinks.1 hmem
  have hns0' : link ∉ get_scraped_urls col0 := by
    rwa [storedOf_eq] at hns0
  have h1 : link ∉ get_scraped_urls (runMain env col0).collection := by
    intro h
    rcases runMain_urls_cases env col0 h with h | ⟨_, hx⟩
    · exact hns0' h
    · exact hx hempty
  have h5 : link ∈ validLinks env (storedOf (runMain env col0).collection) :=
    mem_validLinks.2 ⟨hdisc, by rwa [storedOf_eq]⟩
  refine ⟨h1, ?_, ?_, ?_, h5, ?_⟩
  · intro h
    have := runMain_event_of_empty env col0 h hempty
    simp [Event.link] at this
  · intro h
    have := runMain_event_of_empty env col0 h hempty
    simp [Event.link] at this
  · intro h
    have := runMain_event_of_empty env col0 h hempty
    simp [Event.link] at this
  · intro hab2
    exact runMain_not_aborted_extract env _ hab2 h5

/-- C10 witness: a concrete empty-extraction link remains a valid candidate of
    the next run over the same store. -/
theorem empty_extraction_refetch_witness :
    linkOct3 ∈ validLinks envC10 (storedOf ([] : Collection)) ∧
    linkOct3 ∈ validLinks envC10 (storedOf (runMain envC10 []).collection) :=
  ⟨by decide, (empty_extraction_refetch envC10 [] linkOct3 (by decide) rfl).2.2.2.2.1⟩

end IndiaBix
